import Mathlib

/-!
Verification development for the code-sensei repository.

The repository forwards a prompt to a generative-text API, retries the call
on failure, and extracts html/css/js sections from the model's response,
either from marker-delimited text (regex over `HTML_START`/`HTML_END` etc.)
or from an embedded JSON object (slice between the first `\x7b` and the last
`\x7d`, then `JSON.parse`).

This file gives a shallow embedding of that logic:
  * character-level models of `String.prototype.trim`, `indexOf`,
    `lastIndexOf`, `substring` and of the non-greedy regex
    `MARK_START\n([\s\S]*?)\nMARK_END` used by the handlers;
  * a model of `JSON.parse` (recursive-descent parser with fuel) and of the
    JavaScript truthiness used by `parsedJson.html || ""`;
  * a model of the `fetchWithRetries` exponential-backoff wrapper, where the
    wrapped thunk is represented by the sequence of outcomes of its
    successive invocations and the requested delays are collected in a list;
  * models of the request-validation gate and of the response pipelines of
    the serverless handlers.
-/

/-- Characters removed by JavaScript `String.prototype.trim` (WhiteSpace and
LineTerminator code points). -/
def jsWs (c : Char) : Bool :=
  c.toNat = 9 || c.toNat = 10 || c.toNat = 11 || c.toNat = 12 ||
  c.toNat = 13 || c.toNat = 32 || c.toNat = 160 || c.toNat = 0x1680 ||
  (0x2000 ≤ c.toNat && c.toNat ≤ 0x200A) || c.toNat = 0x2028 ||
  c.toNat = 0x2029 || c.toNat = 0x202F || c.toNat = 0x205F ||
  c.toNat = 0x3000 || c.toNat = 0xFEFF

/-- Drop leading JS whitespace. -/
def trimLeftL (l : List Char) : List Char := l.dropWhile jsWs

/-- Drop trailing JS whitespace. -/
def trimRightL (l : List Char) : List Char := (l.reverse.dropWhile jsWs).reverse

/-- Model of JavaScript `String.prototype.trim` on character lists. -/
def trimL (l : List Char) : List Char := trimRightL (trimLeftL l)

/-- Model of JavaScript `String.prototype.trim`. -/
def jsTrim (s : String) : String := String.mk (trimL s.data)

/-- `leadsWith p l` holds when `p` is an initial segment of `l`. -/
def leadsWith : List Char → List Char → Bool
  | [], _ => true
  | _ :: _, [] => false
  | a :: as, b :: bs => a == b && leadsWith as bs

/-- Non-greedy scan: capture characters until the first position where `e`
starts, returning `none` when `e` never occurs.  This is the behaviour of
`([\s\S]*?)` followed by the literal `e` in a JavaScript regex. -/
def captureUntil (e : List Char) : List Char → Option (List Char)
  | [] => if leadsWith e [] then some [] else none
  | c :: cs =>
    if leadsWith e (c :: cs) then some []
    else (captureUntil e cs).map (fun cap => c :: cap)

/-- Model of `text.match(/S([\s\S]*?)E/)` group 1: find the leftmost position
where `s` starts and is eventually followed by `e`, and return the shortest
enclosed segment. -/
def findMarker (s e : List Char) : List Char → Option (List Char)
  | [] => none
  | c :: cs =>
    if leadsWith s (c :: cs) then
      match captureUntil e (List.drop s.length (c :: cs)) with
      | some cap => some cap
      | none => findMarker s e cs
    else findMarker s e cs

/-- One extracted field, Express variant
(`match ? match[1].trim() : ""`, server/index.js). -/
def markerFieldE (s e t : List Char) : List Char :=
  match findMarker s e t with
  | some cap => trimL cap
  | none => []

/-- One extracted field, Netlify variant
(`match && match[1] ? match[1].trim() : ""`, api/generate.js). -/
def markerFieldN (s e t : List Char) : List Char :=
  match findMarker s e t with
  | some cap => if cap.isEmpty then [] else trimL cap
  | none => []

/-- The three code sections produced by marker-mode extraction. -/
structure Sections where
  html : List Char
  css : List Char
  js : List Char
deriving Repr, DecidableEq

def htmlStartMark : List Char := "HTML_START\n".data

def htmlEndMark : List Char := "\nHTML_END".data

def cssStartMark : List Char := "CSS_START\n".data

def cssEndMark : List Char := "\nCSS_END".data

def jsStartMark : List Char := "JS_START\n".data

def jsEndMark : List Char := "\nJS_END".data

/-- Marker-mode extraction, Express variant (server/index.js lines 74-81,
applied to the raw response text). -/
def extractSectionsE (t : List Char) : Sections :=
  { html := markerFieldE htmlStartMark htmlEndMark t
  , css := markerFieldE cssStartMark cssEndMark t
  , js := markerFieldE jsStartMark jsEndMark t }

/-- Marker-mode extraction, Netlify variant (api/generate.js lines 126-133,
applied to the raw response text; the handler trims the text first). -/
def extractSectionsN (t : List Char) : Sections :=
  { html := markerFieldN htmlStartMark htmlEndMark t
  , css := markerFieldN cssStartMark cssEndMark t
  , js := markerFieldN jsStartMark jsEndMark t }

/-- server/index.js Express route: extraction applied to the response text
as returned (no trim). -/
def expressMarkerSections (text : String) : Sections := extractSectionsE text.data

/-- api/generate.js Netlify handler: the response text is trimmed before the
regex extraction (`const text = response.text.trim()`). -/
def netlifyMarkerSections (text : String) : Sections := extractSectionsN (trimL text.data)

/- ### Basic lemmas about `leadsWith` -/

theorem leadsWith_self_append (s t : List Char) : leadsWith s (s ++ t) = true := by
  induction s with
  | nil => rfl
  | cons a as ih => simp [leadsWith, ih]

theorem leadsWith_iff (p l : List Char) :
    leadsWith p l = true ↔ ∃ t, p ++ t = l := by
  induction p generalizing l with
  | nil => simp [leadsWith]
  | cons a as ih =>
    cases l with
    | nil => simp [leadsWith]
    | cons b bs =>
      simp only [leadsWith, Bool.and_eq_true, beq_iff_eq, ih]
      constructor
      · rintro ⟨rfl, t, rfl⟩; exact ⟨t, rfl⟩
      · rintro ⟨t, h⟩
        cases h
        exact ⟨rfl, t, rfl⟩

theorem leadsWith_nil_iff (p : List Char) : leadsWith p [] = true ↔ p = [] := by
  cases p <;> simp [leadsWith]

theorem leadsWith_append_of (p l t : List Char) (h : leadsWith p l = true) :
    leadsWith p (l ++ t) = true := by
  rcases (leadsWith_iff p l).1 h with ⟨r, rfl⟩
  rw [List.append_assoc]
  exact leadsWith_self_append p (r ++ t)

/- ### Decomposition lemmas: what the non-greedy regex returns on a
well-formed decomposition of the text -/

theorem captureUntil_decomp (e m q : List Char) (he : e ≠ [])
    (h : ∀ i < m.length, leadsWith e (List.drop i (m ++ e ++ q)) = false) :
    captureUntil e (m ++ e ++ q) = some m := by
  induction m with
  | nil =>
    cases e with
    | nil => exact absurd rfl he
    | cons c e' =>
      have hlw : leadsWith (c :: e') ((c :: e') ++ q) = true :=
        leadsWith_self_append (c :: e') q
      simp only [List.nil_append] at *
      rw [show (c :: e') ++ q = c :: (e' ++ q) from rfl]
      simp [captureUntil, show leadsWith (c :: e') (c :: (e' ++ q)) = true from hlw]
  | cons x m' ih =>
    have h0 : leadsWith e (x :: (m' ++ e ++ q)) = false := by
      have := h 0 (by simp)
      simpa using this
    have ih' : captureUntil e (m' ++ e ++ q) = some m' := by
      refine ih (fun i hi => ?_)
      have := h (i + 1) (by simpa using Nat.succ_lt_succ hi)
      simpa using this
    simp only [List.append_assoc] at h0 ih' ⊢
    rw [show x :: m' ++ (e ++ q) = x :: (m' ++ (e ++ q)) from rfl]
    simp [captureUntil, h0, ih']

theorem findMarker_decomp (s e p m q : List Char) (hs : s ≠ []) (he : e ≠ [])
    (hcap : ∀ i < m.length, leadsWith e (List.drop i (m ++ e ++ q)) = false)
    (hp : ∀ i < p.length, leadsWith s (List.drop i (p ++ (s ++ (m ++ e ++ q)))) = false) :
    findMarker s e (p ++ (s ++ (m ++ e ++ q))) = some m := by
  induction p with
  | nil =>
    cases s with
    | nil => exact absurd rfl hs
    | cons c s' =>
      have hlw : leadsWith (c :: s') (c :: (s' ++ (m ++ e ++ q))) = true := by
        have := leadsWith_self_append (c :: s') (m ++ e ++ q)
        simpa using this
      have hdrop : List.drop (c :: s').length (c :: (s' ++ (m ++ e ++ q))) = m ++ e ++ q := by
        have h1 := List.drop_left (c :: s') (m ++ e ++ q)
        simp only [List.cons_append] at h1
        exact h1
      have hcu : captureUntil e (m ++ e ++ q) = some m := captureUntil_decomp e m q he hcap
      simp only [List.append_assoc] at hlw hdrop hcu ⊢
      simp only [List.nil_append, List.cons_append]
      simp [findMarker, hlw, hdrop, hcu]
  | cons x p' ih =>
    have h0 : leadsWith s (x :: (p' ++ (s ++ (m ++ e ++ q)))) = false := by
      have := hp 0 (by simp)
      simpa using this
    have ih' : findMarker s e (p' ++ (s ++ (m ++ e ++ q))) = some m := by
      refine ih (fun i hi => ?_)
      have := hp (i + 1) (by simpa using Nat.succ_lt_succ hi)
      simpa using this
    simp only [List.append_assoc] at h0 ih' ⊢
    rw [show x :: p' ++ (s ++ (m ++ (e ++ q))) = x :: (p' ++ (s ++ (m ++ (e ++ q)))) from rfl]
    simp [findMarker, h0, ih']

theorem findMarker_none (s e t : List Char)
    (h : ∀ i < t.length, leadsWith s (List.drop i t) = false) :
    findMarker s e t = none := by
  induction t with
  | nil => rfl
  | cons c cs ih =>
    have h0 : leadsWith s (c :: cs) = false := by
      have := h 0 (by simp)
      simpa using this
    have ih' : findMarker s e cs = none := by
      refine ih (fun i hi => ?_)
      have := h (i + 1) (by simpa using Nat.succ_lt_succ hi)
      simpa using this
    simp [findMarker, h0, ih']

/- ### Whitespace lemmas: the regex extraction ignores leading and trailing
whitespace around the text -/

/-- Every character of `l` is JS whitespace. -/
def allWs (l : List Char) : Prop := ∀ c ∈ l, jsWs c = true

theorem allWs_of_leadsWith (p l : List Char) (h : leadsWith p l = true)
    (hl : allWs l) : allWs p := by
  rcases (leadsWith_iff p l).1 h with ⟨t, rfl⟩
  exact fun c hc => hl c (List.mem_append_left t hc)

theorem leadsWith_nil_of_ne (e : List Char) (he : e ≠ []) : leadsWith e [] = false := by
  cases e with
  | nil => exact absurd rfl he
  | cons c e' => rfl

theorem captureUntil_ws_none (e ws : List Char) (hws : allWs ws)
    (hd : ∃ c ∈ e, jsWs c = false) : captureUntil e ws = none := by
  induction ws with
  | nil =>
    obtain ⟨c, hc, hcw⟩ := hd
    have he : e ≠ [] := by rintro rfl; simp at hc
    simp [captureUntil, leadsWith_nil_of_ne e he]
  | cons w ws' ih =>
    have hws' : allWs ws' := fun c hc => hws c (List.mem_cons_of_mem w hc)
    have hcond : leadsWith e (w :: ws') = false := by
      cases hcond : leadsWith e (w :: ws') with
      | false => rfl
      | true =>
        obtain ⟨c, hc, hcw⟩ := hd
        have := allWs_of_leadsWith e (w :: ws') hcond hws c hc
        rw [this] at hcw
        exact absurd hcw (by simp)
    simp [captureUntil, hcond, ih hws']

theorem leadsWith_append_ws (e y ws : List Char) (hws : allWs ws)
    (hlast : ∃ e₀ d, e = e₀ ++ [d] ∧ jsWs d = false) :
    leadsWith e (y ++ ws) = leadsWith e y := by
  cases hy : leadsWith e y with
  | true => exact leadsWith_append_of e y ws hy
  | false =>
    cases hL : leadsWith e (y ++ ws) with
    | false => rfl
    | true =>
      exfalso
      rcases (leadsWith_iff e (y ++ ws)).1 hL with ⟨t, ht⟩
      rcases List.append_eq_append_iff.1 ht with ⟨a', ha', _⟩ | ⟨k, hk, hwst⟩
      · rw [ha', leadsWith_self_append] at hy
        exact absurd hy (by simp)
      · obtain ⟨e₀, d, hed, hdw⟩ := hlast
        rcases List.eq_nil_or_concat k with rfl | ⟨k₀, d', hk'⟩
        · rw [List.append_nil] at hk
          rw [hk] at hy
          have : leadsWith y y = true := by
            have h1 := leadsWith_self_append y []
            simpa using h1
          rw [this] at hy
          exact absurd hy (by simp)
        · rw [List.concat_eq_append] at hk'
          have hke : y ++ (k₀ ++ [d']) = e₀ ++ [d] := by rw [← hk' , ← hk, hed]
          have hd' : d' = d := by
            have h1 := congrArg List.reverse hke
            simp only [List.reverse_append, List.reverse_cons, List.reverse_nil,
              List.nil_append, List.cons_append] at h1
            injection h1 with h2 h3
          have hdk : d' ∈ k := by
            rw [hk', ]
            exact List.mem_append_right k₀ (by simp)
          have hkws : allWs k := by
            intro c hc
            exact hws c (by rw [hwst]; exact List.mem_append_left t hc)
          have := hkws d' hdk
          rw [hd', hdw] at this
          exact absurd this (by simp)

theorem captureUntil_append_ws (e x ws : List Char) (hws : allWs ws)
    (hlast : ∃ e₀ d, e = e₀ ++ [d] ∧ jsWs d = false) :
    captureUntil e (x ++ ws) = captureUntil e x := by
  have hd : ∃ c ∈ e, jsWs c = false := by
    obtain ⟨e₀, d, hed, hdw⟩ := hlast
    exact ⟨d, by rw [hed]; exact List.mem_append_right e₀ (by simp), hdw⟩
  have he : e ≠ [] := by
    obtain ⟨c, hc, _⟩ := hd
    rintro rfl
    simp at hc
  induction x with
  | nil =>
    rw [List.nil_append, captureUntil_ws_none e ws hws hd]
    simp [captureUntil, leadsWith_nil_of_ne e he]
  | cons c x' ih =>
    have hcond := leadsWith_append_ws e (c :: x') ws hws hlast
    rw [show (c :: x') ++ ws = c :: (x' ++ ws) from rfl]
    cases hy : leadsWith e (c :: x') with
    | true =>
      rw [hy] at hcond
      simp only [List.cons_append] at hcond
      simp [captureUntil, hcond, hy]
    | false =>
      rw [hy] at hcond
      simp only [List.cons_append] at hcond
      simp [captureUntil, hcond, hy, ih]

theorem findMarker_ws_none (s e ws : List Char) (hws : allWs ws)
    (hsne : ∃ c ∈ s, jsWs c = false) : findMarker s e ws = none := by
  induction ws with
  | nil => rfl
  | cons w ws' ih =>
    have hws' : allWs ws' := fun c hc => hws c (List.mem_cons_of_mem w hc)
    have hcond : leadsWith s (w :: ws') = false := by
      cases hcond : leadsWith s (w :: ws') with
      | false => rfl
      | true =>
        obtain ⟨c, hc, hcw⟩ := hsne
        have := allWs_of_leadsWith s (w :: ws') hcond hws c hc
        rw [this] at hcw
        exact absurd hcw (by simp)
    simp [findMarker, hcond, ih hws']

theorem findMarker_append_ws (s e x ws : List Char) (hws : allWs ws)
    (hsne : ∃ c ∈ s, jsWs c = false)
    (hlast : ∃ e₀ d, e = e₀ ++ [d] ∧ jsWs d = false) :
    findMarker s e (x ++ ws) = findMarker s e x := by
  have hd : ∃ c ∈ e, jsWs c = false := by
    obtain ⟨e₀, d, hed, hdw⟩ := hlast
    exact ⟨d, by rw [hed]; exact List.mem_append_right e₀ (by simp), hdw⟩
  induction x with
  | nil => simpa using findMarker_ws_none s e ws hws hsne
  | cons c x' ih =>
    rw [show (c :: x') ++ ws = c :: (x' ++ ws) from rfl]
    cases hy : leadsWith s (c :: x') with
    | true =>
      have hL : leadsWith s (c :: (x' ++ ws)) = true := by
        rw [show c :: (x' ++ ws) = (c :: x') ++ ws from rfl]
        exact leadsWith_append_of s (c :: x') ws hy
      obtain ⟨t, ht⟩ := (leadsWith_iff s (c :: x')).1 hy
      have hdropL : List.drop s.length (c :: (x' ++ ws)) = t ++ ws := by
        have h1 : c :: (x' ++ ws) = s ++ (t ++ ws) := by
          rw [← List.append_assoc, ht]
          rfl
        rw [h1, List.drop_left]
      have hdropR : List.drop s.length (c :: x') = t := by
        rw [← ht, List.drop_left]
      have hcap : captureUntil e (t ++ ws) = captureUntil e t :=
        captureUntil_append_ws e t ws hws hlast
      cases hcu : captureUntil e t with
      | some cap =>
        simp [findMarker, hy, hL, hdropL, hdropR, hcap, hcu]
      | none =>
        simp [findMarker, hy, hL, hdropL, hdropR, hcap, hcu, ih]
    | false =>
      cases hL : leadsWith s (c :: (x' ++ ws)) with
      | false => simp [findMarker, hy, hL, ih]
      | true =>
        rcases (leadsWith_iff s (c :: (x' ++ ws))).1 hL with ⟨t, ht⟩
        have ht' : s ++ t = (c :: x') ++ ws := by simpa using ht
        rcases List.append_eq_append_iff.1 ht' with ⟨a', ha', _⟩ | ⟨k, hk, hwst⟩
        · rw [ha', leadsWith_self_append] at hy
          exact absurd hy (by simp)
        · rcases List.eq_nil_or_concat k with rfl | ⟨k₀, d', hk'⟩
          · rw [List.append_nil] at hk
            rw [hk] at hy
            have hself : leadsWith (c :: x') (c :: x') = true := by
              have h1 := leadsWith_self_append (c :: x') []
              simpa using h1
            rw [hself] at hy
            exact absurd hy (by simp)
          · have hkws : allWs k := by
              intro ch hch
              exact hws ch (by rw [hwst]; exact List.mem_append_left t hch)
            have hdropL : List.drop s.length (c :: (x' ++ ws)) = List.drop k.length ws := by
              have h1 : c :: (x' ++ ws) = (c :: x') ++ ws := rfl
              have h2 : s.length = (c :: x').length + k.length := by
                rw [hk, List.length_append]
              rw [h1, h2, ← List.drop_drop, List.drop_left]
            have hcapL : captureUntil e (List.drop k.length ws) = none := by
              refine captureUntil_ws_none e _ ?_ hd
              intro ch hch
              exact hws ch (List.drop_subset k.length ws hch)
            simp [findMarker, hy, hL, hdropL, hcapL, ih]

theorem findMarker_ws_prepend (s e ws x : List Char) (hws : allWs ws)
    (hhead : ∃ c s', s = c :: s' ∧ jsWs c = false) :
    findMarker s e (ws ++ x) = findMarker s e x := by
  induction ws with
  | nil => rfl
  | cons w ws' ih =>
    have hws' : allWs ws' := fun c hc => hws c (List.mem_cons_of_mem w hc)
    have hcond : leadsWith s (w :: (ws' ++ x)) = false := by
      obtain ⟨c, s', rfl, hcw⟩ := hhead
      have hwv : jsWs w = true := hws w (by simp)
      have hne : (c == w) = false := by
        cases hcw' : c == w with
        | false => rfl
        | true =>
          have : c = w := by simpa using hcw'
          rw [this, hwv] at hcw
          exact absurd hcw (by simp)
      simp [leadsWith, hne]
    rw [show (w :: ws') ++ x = w :: (ws' ++ x) from rfl]
    simp [findMarker, hcond, ih hws']

/- ### Trim decomposition and idempotence -/

theorem allWs_takeWhile (l : List Char) : allWs (l.takeWhile jsWs) :=
  fun _ hc => List.mem_takeWhile_imp hc

theorem trimLeft_decomp (l : List Char) : l = l.takeWhile jsWs ++ trimLeftL l := by
  rw [trimLeftL]
  exact (List.takeWhile_append_dropWhile jsWs l).symm

/-- The trailing whitespace removed by `trimRightL`. -/
def wsTail (l : List Char) : List Char := (l.reverse.takeWhile jsWs).reverse

theorem trimRight_decomp (l : List Char) : l = trimRightL l ++ wsTail l := by
  have h := List.takeWhile_append_dropWhile jsWs l.reverse
  calc l = l.reverse.reverse := (List.reverse_reverse l).symm
  _ = (l.reverse.takeWhile jsWs ++ l.reverse.dropWhile jsWs).reverse := by rw [h]
  _ = trimRightL l ++ wsTail l := by rw [List.reverse_append]; rfl

theorem allWs_wsTail (l : List Char) : allWs (wsTail l) := by
  intro c hc
  rw [wsTail, List.mem_reverse] at hc
  exact List.mem_takeWhile_imp hc

theorem findMarker_trimL (s e t : List Char)
    (hhead : ∃ c s', s = c :: s' ∧ jsWs c = false)
    (hlast : ∃ e₀ d, e = e₀ ++ [d] ∧ jsWs d = false) :
    findMarker s e (trimL t) = findMarker s e t := by
  have hsne : ∃ c ∈ s, jsWs c = false := by
    obtain ⟨c, s', rfl, hcw⟩ := hhead
    exact ⟨c, by simp, hcw⟩
  have h1 : findMarker s e t = findMarker s e (trimLeftL t) := by
    conv_lhs => rw [trimLeft_decomp t]
    exact findMarker_ws_prepend s e _ _ (allWs_takeWhile t) hhead
  have h2 : findMarker s e (trimLeftL t) = findMarker s e (trimL t) := by
    conv_lhs => rw [trimRight_decomp (trimLeftL t)]
    exact findMarker_append_ws s e _ _ (allWs_wsTail _) hsne hlast
  rw [h1, h2]

theorem markerFieldE_trimL (s e t : List Char)
    (hhead : ∃ c s', s = c :: s' ∧ jsWs c = false)
    (hlast : ∃ e₀ d, e = e₀ ++ [d] ∧ jsWs d = false) :
    markerFieldE s e (trimL t) = markerFieldE s e t := by
  rw [markerFieldE, markerFieldE, findMarker_trimL s e t hhead hlast]

theorem markerFieldN_trimL (s e t : List Char)
    (hhead : ∃ c s', s = c :: s' ∧ jsWs c = false)
    (hlast : ∃ e₀ d, e = e₀ ++ [d] ∧ jsWs d = false) :
    markerFieldN s e (trimL t) = markerFieldN s e t := by
  rw [markerFieldN, markerFieldN, findMarker_trimL s e t hhead hlast]

theorem htmlStartMark_head : ∃ c s', htmlStartMark = c :: s' ∧ jsWs c = false :=
  ⟨'H', "TML_START\n".data, by decide, by decide⟩

theorem htmlEndMark_last : ∃ e₀ d, htmlEndMark = e₀ ++ [d] ∧ jsWs d = false :=
  ⟨"\nHTML_EN".data, 'D', by decide, by decide⟩

theorem cssStartMark_head : ∃ c s', cssStartMark = c :: s' ∧ jsWs c = false :=
  ⟨'C', "SS_START\n".data, by decide, by decide⟩

theorem cssEndMark_last : ∃ e₀ d, cssEndMark = e₀ ++ [d] ∧ jsWs d = false :=
  ⟨"\nCSS_EN".data, 'D', by decide, by decide⟩

theorem jsStartMark_head : ∃ c s', jsStartMark = c :: s' ∧ jsWs c = false :=
  ⟨'J', "S_START\n".data, by decide, by decide⟩

theorem jsEndMark_last : ∃ e₀ d, jsEndMark = e₀ ++ [d] ∧ jsWs d = false :=
  ⟨"\nJS_EN".data, 'D', by decide, by decide⟩

theorem extractSectionsE_trimL (t : List Char) :
    extractSectionsE (trimL t) = extractSectionsE t := by
  rw [extractSectionsE, extractSectionsE,
    markerFieldE_trimL _ _ t htmlStartMark_head htmlEndMark_last,
    markerFieldE_trimL _ _ t cssStartMark_head cssEndMark_last,
    markerFieldE_trimL _ _ t jsStartMark_head jsEndMark_last]

theorem extractSectionsN_trimL (t : List Char) :
    extractSectionsN (trimL t) = extractSectionsN t := by
  rw [extractSectionsN, extractSectionsN,
    markerFieldN_trimL _ _ t htmlStartMark_head htmlEndMark_last,
    markerFieldN_trimL _ _ t cssStartMark_head cssEndMark_last,
    markerFieldN_trimL _ _ t jsStartMark_head jsEndMark_last]

theorem dropWhile_idem (p : Char → Bool) (l : List Char) :
    List.dropWhile p (List.dropWhile p l) = List.dropWhile p l := by
  induction l with
  | nil => rfl
  | cons c cs ih =>
    by_cases h : p c = true
    · simp [List.dropWhile_cons, h, ih]
    · simp [List.dropWhile_cons, h]

theorem trimRightL_idem (y : List Char) : trimRightL (trimRightL y) = trimRightL y := by
  rw [trimRightL, trimRightL, List.reverse_reverse, dropWhile_idem]

theorem dropWhile_fix_of_head (p : Char → Bool) (l : List Char)
    (h : l = [] ∨ ∃ c cs, l = c :: cs ∧ p c = false) : List.dropWhile p l = l := by
  rcases h with rfl | ⟨c, cs, rfl, hc⟩
  · rfl
  · simp [List.dropWhile_cons, hc]

theorem trimLeftL_trimL (l : List Char) : trimLeftL (trimL l) = trimL l := by
  have hly : trimLeftL (trimLeftL l) = trimLeftL l := dropWhile_idem jsWs l
  rw [trimL, trimLeftL]
  refine dropWhile_fix_of_head jsWs _ ?_
  cases hy : trimRightL (trimLeftL l) with
  | nil => exact Or.inl rfl
  | cons c cs =>
    refine Or.inr ⟨c, cs, rfl, ?_⟩
    have hdec := trimRight_decomp (trimLeftL l)
    rw [hy] at hdec
    have hne : List.dropWhile jsWs (trimLeftL l) = trimLeftL l := hly
    rw [hdec] at hne
    rw [show (c :: cs) ++ wsTail (trimLeftL l) = c :: (cs ++ wsTail (trimLeftL l)) from rfl] at hne
    have hc := List.dropWhile_eq_self_iff.mp hne (by simp)
    simpa using hc

theorem trimL_idem (l : List Char) : trimL (trimL l) = trimL l := by
  have h1 : trimL (trimL l) = trimRightL (trimL l) := by
    rw [trimL, trimLeftL_trimL l]
  rw [h1, trimL, trimRightL_idem]

/- ### Model of JavaScript JSON values and of JSON.parse -/

/-- JavaScript values produced by `JSON.parse` (numbers are kept as their
source token, which is all the handlers ever inspect). -/
inductive JValue where
  | null : JValue
  | bool (b : Bool) : JValue
  | num (raw : List Char) : JValue
  | str (s : List Char) : JValue
  | arr (elems : List JValue) : JValue
  | obj (fields : List (List Char × JValue)) : JValue
deriving Repr

/-- JSON insignificant whitespace. -/
def jsonWsChar (c : Char) : Bool := c = ' ' || c = '\t' || c = '\n' || c = '\r'

def skipWs (l : List Char) : List Char := l.dropWhile jsonWsChar

def hexVal (c : Char) : Option Nat :=
  if '0' ≤ c ∧ c ≤ '9' then some (c.toNat - 48)
  else if 'a' ≤ c ∧ c ≤ 'f' then some (c.toNat - 87)
  else if 'A' ≤ c ∧ c ≤ 'F' then some (c.toNat - 55)
  else none

/-- Parse the body of a JSON string literal (the opening quote has already
been consumed); returns the decoded characters and the rest of the input
after the closing quote.  The `fuel` bounds recursion depth. -/
def parseStrF : Nat → List Char → Option (List Char × List Char)
  | 0, _ => none
  | _, [] => none
  | fuel + 1, c :: cs =>
    if c = '"' then some ([], cs)
    else if c = '\\' then
      match cs with
      | [] => none
      | e :: es =>
        if e = '"' then (parseStrF fuel es).map (fun p => ('"' :: p.1, p.2))
        else if e = '\\' then (parseStrF fuel es).map (fun p => ('\\' :: p.1, p.2))
        else if e = '/' then (parseStrF fuel es).map (fun p => ('/' :: p.1, p.2))
        else if e = 'b' then (parseStrF fuel es).map (fun p => (Char.ofNat 8 :: p.1, p.2))
        else if e = 'f' then (parseStrF fuel es).map (fun p => (Char.ofNat 12 :: p.1, p.2))
        else if e = 'n' then (parseStrF fuel es).map (fun p => ('\n' :: p.1, p.2))
        else if e = 'r' then (parseStrF fuel es).map (fun p => (Char.ofNat 13 :: p.1, p.2))
        else if e = 't' then (parseStrF fuel es).map (fun p => ('\t' :: p.1, p.2))
        else if e = 'u' then
          match es with
          | h1 :: h2 :: h3 :: h4 :: es2 =>
            match hexVal h1, hexVal h2, hexVal h3, hexVal h4 with
            | some a, some b, some c2, some d =>
              (parseStrF fuel es2).map
                (fun p => (Char.ofNat (((a * 16 + b) * 16 + c2) * 16 + d) :: p.1, p.2))
            | _, _, _, _ => none
          | _ => none
        else none
    else if c.toNat < 32 then none
    else (parseStrF fuel cs).map (fun p => (c :: p.1, p.2))

def parseStr (l : List Char) : Option (List Char × List Char) :=
  parseStrF (l.length + 1) l

def isDigit09 (c : Char) : Bool := '0' ≤ c && c ≤ '9'

def isDigit19 (c : Char) : Bool := '1' ≤ c && c ≤ '9'

/-- Parse a JSON number token; returns the consumed characters and the rest. -/
def parseNumber (l : List Char) : Option (List Char × List Char) :=
  let (sign, r1) : List Char × List Char :=
    match l with
    | '-' :: r => (['-'], r)
    | r => ([], r)
  let intPart : Option (List Char × List Char) :=
    match r1 with
    | [] => none
    | c :: r2 =>
      if c = '0' then some (['0'], r2)
      else if isDigit19 c then some (c :: r2.takeWhile isDigit09, r2.dropWhile isDigit09)
      else none
  match intPart with
  | none => none
  | some (ip, r3) =>
    let fracPart : Option (List Char × List Char) :=
      match r3 with
      | '.' :: r4 =>
        let ds := r4.takeWhile isDigit09
        if ds.isEmpty then none else some ('.' :: ds, r4.dropWhile isDigit09)
      | _ => some ([], r3)
    match fracPart with
    | none => none
    | some (fp, r5) =>
      let expPart : Option (List Char × List Char) :=
        match r5 with
        | c :: r6 =>
          if c = 'e' ∨ c = 'E' then
            let (es, r7) : List Char × List Char :=
              match r6 with
              | '+' :: r7 => (['+'], r7)
              | '-' :: r7 => (['-'], r7)
              | r7 => ([], r7)
            let ds := r7.takeWhile isDigit09
            if ds.isEmpty then none else some (c :: (es ++ ds), r7.dropWhile isDigit09)
          else some ([], r5)
        | [] => some ([], r5)
      match expPart with
      | none => none
      | some (ep, r8) => some (sign ++ ip ++ fp ++ ep, r8)

mutual

/-- Parse one JSON value (model of the grammar accepted by `JSON.parse`). -/
def parseValueF : Nat → List Char → Option (JValue × List Char)
  | 0, _ => none
  | fuel + 1, l =>
    match skipWs l with
    | [] => none
    | c :: cs =>
      if c = '{' then
        match skipWs cs with
        | c2 :: cs2 =>
          if c2 = '}' then some (JValue.obj [], cs2)
          else parseMembersF fuel [] (c2 :: cs2)
        | [] => none
      else if c = '[' then
        match skipWs cs with
        | c2 :: cs2 =>
          if c2 = ']' then some (JValue.arr [], cs2)
          else parseElemsF fuel [] (c2 :: cs2)
        | [] => none
      else if c = '"' then
        (parseStr cs).map (fun p => (JValue.str p.1, p.2))
      else if c = 't' then
        match cs with
        | 'r' :: 'u' :: 'e' :: r => some (JValue.bool true, r)
        | _ => none
      else if c = 'f' then
        match cs with
        | 'a' :: 'l' :: 's' :: 'e' :: r => some (JValue.bool false, r)
        | _ => none
      else if c = 'n' then
        match cs with
        | 'u' :: 'l' :: 'l' :: r => some (JValue.null, r)
        | _ => none
      else if c = '-' ∨ isDigit09 c then
        (parseNumber (c :: cs)).map (fun p => (JValue.num p.1, p.2))
      else none

/-- Parse the members of a JSON object after its opening brace (the next
token is expected to be a key). -/
def parseMembersF : Nat → List (List Char × JValue) → List Char →
    Option (JValue × List Char)
  | 0, _, _ => none
  | fuel + 1, acc, l =>
    match skipWs l with
    | c :: cs =>
      if c = '"' then
        match parseStr cs with
        | some (key, r1) =>
          match skipWs r1 with
          | c2 :: r2 =>
            if c2 = ':' then
              match parseValueF fuel r2 with
              | some (v, r3) =>
                match skipWs r3 with
                | c3 :: r4 =>
                  if c3 = ',' then parseMembersF fuel (acc ++ [(key, v)]) r4
                  else if c3 = '}' then some (JValue.obj (acc ++ [(key, v)]), r4)
                  else none
                | [] => none
              | none => none
            else none
          | [] => none
        | none => none
      else none
    | [] => none

/-- Parse the elements of a JSON array after its opening bracket. -/
def parseElemsF : Nat → List JValue → List Char → Option (JValue × List Char)
  | 0, _, _ => none
  | fuel + 1, acc, l =>
    match parseValueF fuel l with
    | some (v, r1) =>
      match skipWs r1 with
      | c :: r2 =>
        if c = ',' then parseElemsF fuel (acc ++ [v]) r2
        else if c = ']' then some (JValue.arr (acc ++ [v]), r2)
        else none
      | [] => none
    | none => none

end

/-- Model of `JSON.parse`: parse one value and require that only whitespace
remains. -/
def parseJson (l : List Char) : Option JValue :=
  match parseValueF (l.length + 1) l with
  | some (v, rest) => if skipWs rest = [] then some v else none
  | none => none

/- ### JavaScript truthiness and field access -/

/-- A JSON number is falsy exactly when its mantissa has no non-zero digit. -/
def numTruthy (raw : List Char) : Bool :=
  (raw.takeWhile (fun c => !(c = 'e' || c = 'E'))).any isDigit19

/-- JavaScript truthiness of a parsed JSON value. -/
def jsTruthy : JValue → Bool
  | .null => false
  | .bool b => b
  | .str s => !s.isEmpty
  | .num raw => numTruthy raw
  | .arr _ => true
  | .obj _ => true

/-- Property access `v.key` on a parsed JSON value: for objects the last
binding of the key wins (as with `JSON.parse` duplicate keys), anything else
gives `undefined`, modelled as `none`. -/
def jsGetField : JValue → List Char → Option JValue
  | .obj fs, k => fs.foldl (fun acc kv => if kv.1 = k then some kv.2 else acc) none
  | _, _ => none

/-- Truthiness of a possibly-undefined value. -/
def jsTruthyOpt : Option JValue → Bool
  | none => false
  | some v => jsTruthy v

/-- Model of `x || ""`: a truthy value passes through unchanged, anything
falsy (including `undefined`) becomes the empty string. -/
def orEmptyStr : Option JValue → JValue
  | some v => if jsTruthy v then v else JValue.str []
  | none => JValue.str []

/- ### Brace slicing (embedded-JSON extraction) -/

/-- Model of `text.indexOf(ch)` (as an `Option` instead of `-1`). -/
def charIdx (ch : Char) : List Char → Option Nat
  | [] => none
  | x :: xs => if x = ch then some 0 else (charIdx ch xs).map (fun i => i + 1)

/-- Model of `text.lastIndexOf(ch)`. -/
def lastCharIdx (ch : Char) (l : List Char) : Option Nat :=
  (charIdx ch l.reverse).map (fun i => l.length - 1 - i)

/-- server/index.js lines 174-179: slice the text between the first opening
brace and the last closing brace when both exist in that order, otherwise
keep the whole text. -/
def sliceBraces (t : List Char) : List Char :=
  match charIdx '{' t, lastCharIdx '}' t with
  | some f, some l => if f < l then (t.drop f).take (l + 1 - f) else t
  | _, _ => t

def htmlKey : List Char := "html".data

def cssKey : List Char := "css".data

def jsKey : List Char := "js".data

/- ### The embedded-JSON response pipeline (server/index.js lines 169-215) -/

/-- The observable outcome of the Netlify JSON-mode handler, given the model
response text: the status code, the `error` field of the body on failure,
and the `html`/`css`/`js`/`text` fields of the body on success. -/
structure JsonHandlerResult where
  statusCode : Nat
  errorMsg : Option String
  html : Option JValue
  css : Option JValue
  js : Option JValue
  rawText : Option String
deriving Repr

/-- Model of the message of the error thrown on a JSON parse failure
(line 186; the platform parser's own message text is elided). -/
def parseFailureDetail (jsonText : List Char) : String :=
  String.mk ("Failed to parse JSON response. Raw text: ".data ++
    jsonText.take 100 ++ "...".data)

def containsSub (pat : List Char) : List Char → Bool
  | [] => leadsWith pat []
  | c :: cs => leadsWith pat (c :: cs) || containsSub pat cs

/-- server/index.js lines 203-208 (and the analogous check in
src/unnamed/part_000 line 123): classify a failure message as a timeout. -/
def isTransientMessage (m : String) : Bool :=
  containsSub "504".data m.data || containsSub "timeout".data m.data ||
  containsSub "ECONNRESET".data m.data

/-- server/index.js lines 199-208: the `error` field produced by the catch
block for a thrown error with message `msg`. -/
def catchErrorMessage (msg : String) : String :=
  if isTransientMessage msg then
    "Generation request timed out (Netlify 10-second limit exceeded). Please try a shorter or simpler prompt, like \"A blue button.\""
  else
    String.mk (("Failed to generate code from Gemini API. Details: ".data ++
      msg.data.take 300 ++ ".".data))

/-- server/index.js lines 169-215: trim the response text, slice between the
outermost braces, `JSON.parse` the slice, and build the 200 response from
`parsedJson.html || ""` etc.; a parse failure throws, and the catch block
turns it into a 500 response with an `error` field and no data fields. -/
def jsonModeExtract (respText : String) : JsonHandlerResult :=
  let text := trimL respText.data
  let jsonText := sliceBraces text
  match parseJson jsonText with
  | some parsed =>
    { statusCode := 200
    , errorMsg := none
    , html := some (orEmptyStr (jsGetField parsed htmlKey))
    , css := some (orEmptyStr (jsGetField parsed cssKey))
    , js := some (orEmptyStr (jsGetField parsed jsKey))
    , rawText := some (String.mk text) }
  | none =>
    { statusCode := 500
    , errorMsg := some (catchErrorMessage (parseFailureDetail jsonText))
    , html := none
    , css := none
    , js := none
    , rawText := none }

/- ### The retry wrapper (src/unnamed/part_001 lines 12-29 and
src/unnamed/part_002 lines 13-34) -/

/-- What `fetchWithRetries` can leave the caller with: a result, a thrown
error, or `undefined` (the loop body never ran). -/
inductive RetryOutcome (E A : Type) where
  | ok (a : A) : RetryOutcome E A
  | err (e : E) : RetryOutcome E A
  | undef : RetryOutcome E A
deriving Repr, DecidableEq

/-- One loop of `fetchWithRetries`, starting at attempt `i`, collecting the
requested backoff delays.  The wrapped thunk is modelled by the sequence
`call` of outcomes of its successive invocations.  Mirrors:
`for (let i = 0; i < maxRetries; i++) { try { return await apiCall(); }
catch (e) { if (i === maxRetries - 1) throw e;
await sleep(initialDelay * 2 ** i); } }`. -/
def fetchAux {E A : Type} (call : Nat → Except E A) (maxRetries initialDelay : Int)
    (i : Nat) (delays : List Int) : RetryOutcome E A × List Int :=
  if _h : (i : Int) < maxRetries then
    match call i with
    | .ok a => (.ok a, delays)
    | .error e =>
      if (i : Int) = maxRetries - 1 then (.err e, delays)
      else fetchAux call maxRetries initialDelay (i + 1)
        (delays ++ [initialDelay * 2 ^ i])
  else (.undef, delays)
termination_by (maxRetries - (i : Int)).toNat
decreasing_by
  omega

/-- Model of `fetchWithRetries(apiCall, maxRetries, initialDelay)`: the final
outcome together with the list of backoff delays requested before retries. -/
def fetchWithRetries {E A : Type} (call : Nat → Except E A)
    (maxRetries initialDelay : Int) : RetryOutcome E A × List Int :=
  fetchAux call maxRetries initialDelay 0 []

/-- Model of the simplified single-attempt wrapper of src/unnamed/part_000
lines 37-45 (`try { return await apiCall(); } catch (e) { throw e; }`). -/
def fetchWithRetriesSimple {E A : Type} (call : Nat → Except E A) : Except E A :=
  call 0

/- ### The request-validation gate (api/generate.js lines 44-88) -/

/-- The parts of a Netlify function event the gate inspects.  The body
carries the decoded body string (the base64 transport decoding of
`event.isBase64Encoded` is outside the model). -/
structure NetlifyEvent where
  httpMethod : String
  body : Option String
deriving Repr

/-- Outcome of the validation gate: an early response, or permission to call
the model with the parsed `prompt` value. -/
inductive GateResult where
  | respond (statusCode : Nat) (errorMsg : Option String) : GateResult
  | proceed (promptVal : JValue) : GateResult
deriving Repr

/-- api/generate.js lines 44-88 (identically src/unnamed/part_001 lines
53-79 and src/unnamed/part_002 lines 72-111): OPTIONS and non-POST handling,
body presence, JSON body parse, `!prompt` check, `!API_KEY` check. -/
def handlerGate (event : NetlifyEvent) (apiKey : Option String) : GateResult :=
  if event.httpMethod = "OPTIONS" then .respond 200 none
  else if event.httpMethod ≠ "POST" then .respond 405 (some "Method Not Allowed")
  else
    match event.body with
    | none => .respond 400 (some "Request body is missing.")
    | some bodyStr =>
      if bodyStr.data.isEmpty then .respond 400 (some "Request body is missing.")
      else
        match parseJson bodyStr.data with
        | none => .respond 400 (some "Invalid JSON in request body.")
        | some requestBody =>
          let prompt := jsGetField requestBody "prompt".data
          if jsTruthyOpt prompt = false then
            .respond 400 (some "Prompt is required.")
          else if (match apiKey with | none => true | some k => k.data.isEmpty) then
            .respond 500 (some "Server configuration error: API Key missing.")
          else .proceed (prompt.getD JValue.null)

/- ### Further helper lemmas -/

theorem markerFieldN_eq_markerFieldE (s e t : List Char) :
    markerFieldN s e t = markerFieldE s e t := by
  rw [markerFieldN, markerFieldE]
  cases h : findMarker s e t with
  | none => rfl
  | some cap =>
    cases cap with
    | nil => simp [trimL, trimLeftL, trimRightL]
    | cons x xs => simp

theorem extractSectionsN_eq_E (t : List Char) : extractSectionsN t = extractSectionsE t := by
  rw [extractSectionsN, extractSectionsE,
    markerFieldN_eq_markerFieldE, markerFieldN_eq_markerFieldE, markerFieldN_eq_markerFieldE]

theorem mem_of_mem_trimLeftL (c : Char) (l : List Char) (h : c ∈ trimLeftL l) : c ∈ l := by
  rw [trimLeft_decomp l]
  exact List.mem_append_right _ h

theorem mem_of_mem_trimRightL (c : Char) (l : List Char) (h : c ∈ trimRightL l) : c ∈ l := by
  rw [trimRight_decomp l]
  exact List.mem_append_left _ h

theorem dropWhile_append_cons (p r : List Char) (x : Char) (hx : jsWs x = false) :
    List.dropWhile jsWs (p ++ (x :: r)) = List.dropWhile jsWs p ++ (x :: r) := by
  induction p with
  | nil => simp [List.dropWhile_cons, hx]
  | cons y ys ih =>
    by_cases hy : jsWs y = true
    · simp [List.cons_append, List.dropWhile_cons, hy, ih]
    · simp [List.cons_append, List.dropWhile_cons, hy]

theorem trimLeftL_append_cons (p r : List Char) (x : Char) (hx : jsWs x = false) :
    trimLeftL (p ++ (x :: r)) = trimLeftL p ++ (x :: r) := by
  rw [trimLeftL, trimLeftL]
  exact dropWhile_append_cons p r x hx

theorem trimRightL_append_concat (y s : List Char) (d : Char) (hd : jsWs d = false) :
    trimRightL ((y ++ [d]) ++ s) = (y ++ [d]) ++ trimRightL s := by
  rw [trimRightL, trimRightL]
  have h1 : ((y ++ [d]) ++ s).reverse = s.reverse ++ (d :: y.reverse) := by
    simp [List.reverse_append]
  rw [h1, dropWhile_append_cons s.reverse y.reverse d hd]
  simp [List.reverse_append]

theorem charIdx_append_first (ch : Char) (a r : List Char) (ha : ch ∉ a) :
    charIdx ch (a ++ ch :: r) = some a.length := by
  induction a with
  | nil => simp [charIdx]
  | cons x xs ih =>
    have hx : ¬(x = ch) := fun h => ha (by simp [h])
    have ha' : ch ∉ xs := fun h => ha (List.mem_cons_of_mem x h)
    rw [show (x :: xs) ++ ch :: r = x :: (xs ++ ch :: r) from rfl]
    simp [charIdx, hx, ih ha']

theorem lastCharIdx_append_last (ch : Char) (a r : List Char) (hr : ch ∉ r) :
    lastCharIdx ch (a ++ ch :: r) = some a.length := by
  rw [lastCharIdx]
  have hrev : (a ++ ch :: r).reverse = r.reverse ++ ch :: a.reverse := by
    simp [List.reverse_append, List.reverse_cons]
  have hr' : ch ∉ r.reverse := by simpa using hr
  rw [hrev, charIdx_append_first ch r.reverse a.reverse hr']
  simp [List.length_append]

/- ### Claim theorems -/

/-- Claim C3: when the wrapped call fails on the first two attempts with a
transient error and succeeds on the third, `fetchWithRetries` with
`maxRetries = 3` and `initialDelay = 1000` returns the successful result
after exactly two retries, requesting the exponential backoff delays
1000 ms and then 2000 ms. -/
theorem retry_two_transient_failures_then_success {A : Type}
    (call : Nat → Except String A) (e0 e1 : String) (a : A)
    (h0 : call 0 = Except.error e0) (h1 : call 1 = Except.error e1)
    (h2 : call 2 = Except.ok a)
    (_ht0 : isTransientMessage e0 = true) (_ht1 : isTransientMessage e1 = true) :
    fetchWithRetries call 3 1000 = (RetryOutcome.ok a, [1000, 2000]) := by
  rw [fetchWithRetries, fetchAux]
  norm_num [h0]
  rw [fetchAux]
  norm_num [h1]
  rw [fetchAux]
  norm_num [h2]

def c3Call : Nat → Except String Nat := fun n =>
  if n = 0 then Except.error "timeout" else
  if n = 1 then Except.error "504 Gateway Timeout" else Except.ok 7

/-- Witness for claim C3 at a concrete call sequence. -/
theorem retry_two_transient_failures_then_success_witness :
    isTransientMessage "timeout" = true ∧
    isTransientMessage "504 Gateway Timeout" = true ∧
    fetchWithRetries c3Call 3 1000 = (RetryOutcome.ok 7, [1000, 2000]) :=
  ⟨by decide, by decide,
    retry_two_transient_failures_then_success c3Call "timeout" "504 Gateway Timeout" 7
      rfl rfl rfl (by decide) (by decide)⟩

def c2Call : Nat → Except String Nat := fun n =>
  if n = 0 then Except.error "Invalid API key" else Except.ok 42

/-- Claim C2 counterexample: a non-transient error on the first attempt is
NOT propagated immediately by `fetchWithRetries` (maxRetries = 3,
initialDelay = 1000): the wrapper requests a 1000 ms delay, retries, and
returns the second attempt's successful result. -/
theorem retry_nontransient_counterexample :
    isTransientMessage "Invalid API key" = false ∧
    fetchWithRetries c2Call 3 1000 = (RetryOutcome.ok 42, [1000]) ∧
    fetchWithRetries c2Call 3 1000 ≠ (RetryOutcome.err "Invalid API key", ([] : List Int)) := by
  refine ⟨by decide, ?_, ?_⟩
  · simp [fetchWithRetries, fetchAux, c2Call]
  · simp [fetchWithRetries, fetchAux, c2Call]

/-- Claim C2 amended: `fetchWithRetries` retries on every error, transient or
not; an error propagates immediately (with no delay) exactly when it occurs
on the final allowed attempt, so a first-attempt error propagates only when
`maxRetries = 1`, and with `maxRetries ≥ 2` the wrapper instead requests the
initial delay and continues with attempt 1. -/
theorem retry_first_error_always_retried {E A : Type} (call : Nat → Except E A)
    (e : E) (d n : Int) (h : call 0 = Except.error e) :
    fetchWithRetries call 1 d = (RetryOutcome.err e, []) ∧
    (2 ≤ n → fetchWithRetries call n d = fetchAux call n d 1 [d]) := by
  constructor
  · rw [fetchWithRetries, fetchAux]
    norm_num [h]
  · intro hn
    rw [fetchWithRetries, fetchAux]
    have hlt : (0 : Int) < n := by omega
    have hne : ¬((0 : Int) = n - 1) := by omega
    simp [h, hlt, hne]

/-- Witness for the amended claim C2 at a concrete call sequence. -/
theorem retry_first_error_always_retried_witness :
    fetchWithRetries c2Call 1 500 = (RetryOutcome.err "Invalid API key", []) ∧
    fetchWithRetries c2Call 2 500 = fetchAux c2Call 2 500 1 [500] :=
  ⟨(retry_first_error_always_retried c2Call "Invalid API key" 500 2 rfl).1,
   (retry_first_error_always_retried c2Call "Invalid API key" 500 2 rfl).2 (by norm_num)⟩

/-- Claim C10: calling `fetchWithRetries` with a non-positive `maxRetries`
returns `undefined` — the loop body never runs, so the wrapped call is never
invoked (the outcome does not depend on `call`), no delay is requested, and
nothing is thrown. -/
theorem retry_nonpositive_maxRetries_undefined {E A : Type}
    (call : Nat → Except E A) (n d : Int) (h : n ≤ 0) :
    fetchWithRetries call n d = (RetryOutcome.undef, []) := by
  rw [fetchWithRetries, fetchAux]
  have hlt : ¬((0 : Int) < n) := by omega
  simp [hlt]

def c10Call : Nat → Except String Nat := fun _ => Except.ok 0

/-- Witness for claim C10 at `maxRetries = 0`. -/
theorem retry_nonpositive_maxRetries_undefined_witness :
    fetchWithRetries c10Call 0 1000 = (RetryOutcome.undef, []) :=
  retry_nonpositive_maxRetries_undefined c10Call 0 1000 (by norm_num)

/-- Claim C9: on a POST request whose parsed body has a missing or empty
(falsy) `prompt`, the gate answers 400 with an `error` field; on a POST
request with a truthy prompt but no configured API key it answers 500 with
an `error` field. -/
theorem gate_missing_prompt_400_missing_key_500 (bodyStr : String) (v : JValue)
    (apiKey : Option String) (hparse : parseJson bodyStr.data = some v) :
    (jsTruthyOpt (jsGetField v "prompt".data) = false →
      handlerGate ⟨"POST", some bodyStr⟩ apiKey =
        GateResult.respond 400 (some "Prompt is required.")) ∧
    (jsTruthyOpt (jsGetField v "prompt".data) = true → apiKey = none →
      handlerGate ⟨"POST", some bodyStr⟩ apiKey =
        GateResult.respond 500 (some "Server configuration error: API Key missing.")) := by
  have hne : bodyStr.data.isEmpty = false := by
    cases hd : bodyStr.data with
    | nil =>
      rw [hd] at hparse
      simp [parseJson, parseValueF, skipWs] at hparse
    | cons c cs => rfl
  constructor
  · intro hp
    simp [handlerGate, hne, hparse, hp]
  · intro hp hk
    subst hk
    simp [handlerGate, hne, hparse, hp]

def promptEmptyBody : String := "\x7b\"prompt\":\"\"\x7d"

def promptEmptyVal : JValue := JValue.obj [("prompt".data, JValue.str [])]

def promptHiBody : String := "\x7b\"prompt\":\"hi\"\x7d"

def promptHiVal : JValue := JValue.obj [("prompt".data, JValue.str "hi".data)]

/-- Witness for claim C9 at concrete request bodies. -/
theorem gate_missing_prompt_400_missing_key_500_witness :
    handlerGate ⟨"POST", some promptEmptyBody⟩ (some "key") =
      GateResult.respond 400 (some "Prompt is required.") ∧
    handlerGate ⟨"POST", some promptHiBody⟩ none =
      GateResult.respond 500 (some "Server configuration error: API Key missing.") :=
  ⟨(gate_missing_prompt_400_missing_key_500 promptEmptyBody promptEmptyVal
      (some "key") rfl).1 rfl,
   (gate_missing_prompt_400_missing_key_500 promptHiBody promptHiVal none rfl).2
      rfl rfl⟩

/-- Claim C5: whenever the slice between the first opening brace and the last
closing brace of the (trimmed) response text is not valid JSON, the JSON-mode
handler reports the failure as a 500 response with an `error` field and
returns no html/css/js data at all. -/
theorem json_parse_failure_reports_500 (raw : String)
    (h : parseJson (sliceBraces (trimL raw.data)) = none) :
    (jsonModeExtract raw).statusCode = 500 ∧
    (jsonModeExtract raw).errorMsg ≠ none ∧
    (jsonModeExtract raw).html = none ∧
    (jsonModeExtract raw).css = none ∧
    (jsonModeExtract raw).js = none := by
  simp [jsonModeExtract, h]

def c5Raw : String := "\x7bnope\x7d"

/-- Witness for claim C5 at a concrete malformed response. -/
theorem json_parse_failure_reports_500_witness :
    (jsonModeExtract c5Raw).statusCode = 500 ∧
    (jsonModeExtract c5Raw).errorMsg ≠ none ∧
    (jsonModeExtract c5Raw).html = none ∧
    (jsonModeExtract c5Raw).css = none ∧
    (jsonModeExtract c5Raw).js = none :=
  json_parse_failure_reports_500 c5Raw rfl

def c7Raw : String := "\x7b\"html\":123\x7d"

/-- Claim C7 counterexample: on the response text `\x7b"html":123\x7d` the
JSON-mode pipeline returns the number 123 for the `html` field
(`parsedJson.html || ""` passes truthy non-strings through unchanged), so
the field is not a string. -/
theorem fields_always_strings_counterexample :
    (jsonModeExtract c7Raw).html = some (JValue.num ('1' :: '2' :: '3' :: [])) ∧
    ∀ s : List Char, JValue.num ('1' :: '2' :: '3' :: []) ≠ JValue.str s :=
  ⟨rfl, fun _ h => JValue.noConfusion h⟩

/-- Claim C7 amended: marker-mode fields are always strings (each field is
either the empty string or the trimmed capture) and never null; the raw-text
field is always a string and never null — whenever the JSON-mode handler
produces a GenerationResult (a 200 response), its `text` field is exactly
the trimmed response string; and a JSON-mode html/css/js field is a string
whenever the parsed value at its key is absent, falsy, or itself a string; a
truthy non-string JSON value is passed through unchanged by `x || ""` and is
then not a string. -/
theorem fields_strings_amended :
    (∀ v : Option JValue,
      (∀ x, v = some x → jsTruthy x = false ∨ ∃ s, x = JValue.str s) →
      ∃ s, orEmptyStr v = JValue.str s) ∧
    (∀ t s e : List Char, markerFieldE s e t = [] ∨
      ∃ cap, findMarker s e t = some cap ∧ markerFieldE s e t = trimL cap) ∧
    (∀ raw : String, (jsonModeExtract raw).statusCode = 200 →
      (jsonModeExtract raw).rawText = some (jsTrim raw)) := by
  refine ⟨?_, ?_, ?_⟩
  · intro v hv
    match v with
    | none => exact ⟨[], rfl⟩
    | some x =>
      rcases hv x rfl with hf | ⟨s, rfl⟩
      · exact ⟨[], by simp [orEmptyStr, hf]⟩
      · cases ht : jsTruthy (JValue.str s) with
        | true => exact ⟨s, by simp [orEmptyStr, ht]⟩
        | false => exact ⟨[], by simp [orEmptyStr, ht]⟩
  · intro t s e
    cases h : findMarker s e t with
    | none => exact Or.inl (by simp [markerFieldE, h])
    | some cap => exact Or.inr ⟨cap, rfl, by simp [markerFieldE, h]⟩
  · intro raw h
    simp only [jsonModeExtract] at h ⊢
    cases hp : parseJson (sliceBraces (trimL raw.data)) with
    | some v => simp [jsTrim]
    | none =>
      rw [hp] at h
      simp at h

/-- Witness for the amended claim C7: a string value passes through
`x || ""` as a string, and on the (200-answered) counterexample response the
raw-text field is the trimmed response string. -/
theorem fields_strings_amended_witness :
    (∃ s, orEmptyStr (some (JValue.str ('a' :: []))) = JValue.str s) ∧
    (jsonModeExtract c7Raw).rawText = some (jsTrim c7Raw) :=
  ⟨fields_strings_amended.1 (some (JValue.str ('a' :: [])))
      (fun _ hx => Or.inr ⟨'a' :: [], (Option.some.inj hx).symm⟩),
   fields_strings_amended.2.2 c7Raw rfl⟩

/-- Claim C8: both extraction modes tolerate leading and trailing whitespace
(extraction of the trimmed text gives the same result as of the raw text, in
the untrimmed Express marker variant, the pre-trimming Netlify marker
variant, and the JSON-mode pipeline), and marker-mode extraction yields the
empty string, rather than failing, for a section whose markers are absent. -/
theorem extraction_trim_invariant (t : String) :
    expressMarkerSections (jsTrim t) = expressMarkerSections t ∧
    netlifyMarkerSections (jsTrim t) = netlifyMarkerSections t ∧
    jsonModeExtract (jsTrim t) = jsonModeExtract t ∧
    (∀ s e : List Char, findMarker s e t.data = none → markerFieldE s e t.data = []) := by
  have hdata : (jsTrim t).data = trimL t.data := rfl
  have hidem : trimL (jsTrim t).data = trimL t.data := by
    rw [hdata]
    exact trimL_idem t.data
  refine ⟨?_, ?_, ?_, ?_⟩
  · show extractSectionsE (jsTrim t).data = extractSectionsE t.data
    rw [hdata]
    exact extractSectionsE_trimL t.data
  · show extractSectionsN (trimL (jsTrim t).data) = extractSectionsN (trimL t.data)
    rw [hidem]
  · rw [jsonModeExtract, jsonModeExtract, hidem]
  · intro s e h
    simp [markerFieldE, h]

def c8Text : String := "  HTML_START\nx\nHTML_END  "

/-- Witness for claim C8 at a concrete text with surrounding whitespace. -/
theorem extraction_trim_invariant_witness :
    expressMarkerSections (jsTrim c8Text) = expressMarkerSections c8Text ∧
    netlifyMarkerSections (jsTrim c8Text) = netlifyMarkerSections c8Text ∧
    jsonModeExtract (jsTrim c8Text) = jsonModeExtract c8Text ∧
    markerFieldE cssStartMark cssEndMark c8Text.data = [] :=
  ⟨(extraction_trim_invariant c8Text).1,
   (extraction_trim_invariant c8Text).2.1,
   (extraction_trim_invariant c8Text).2.2.1,
   (extraction_trim_invariant c8Text).2.2.2 cssStartMark cssEndMark rfl⟩

/- ### Marker-mode extraction on well-formed texts (claims C1 and C6) -/

/-- Tail of a marker text after the CSS block. -/
def afterCss (p2 p3 c : List Char) : List Char :=
  p2 ++ (jsStartMark ++ (c ++ jsEndMark ++ p3))

/-- Tail of a marker text after the HTML block. -/
def afterHtml (p1 p2 p3 b c : List Char) : List Char :=
  p1 ++ (cssStartMark ++ (b ++ cssEndMark ++ afterCss p2 p3 c))

/-- A response text carrying all three marker blocks: each `pᵢ` is the glue
around the blocks and `a`, `b`, `c` are the enclosed contents. -/
def markerText (p0 p1 p2 p3 a b c : List Char) : List Char :=
  p0 ++ (htmlStartMark ++ (a ++ htmlEndMark ++ afterHtml p1 p2 p3 b c))

/-- Claim C1: on a response text in which each marker pair appears with the
markers on their own lines enclosing its content (the hypotheses state that
each start marker first occurs where the decomposition places it, and that
each end marker does not occur inside its content), marker-mode extraction
returns, for each of the html, css and js fields, exactly the enclosed
content trimmed of leading and trailing whitespace — in both the Express and
the Netlify variant of the extraction. -/
theorem marker_extraction_wellformed (p0 p1 p2 p3 a b c : List Char)
    (hH1 : ∀ i < p0.length,
      leadsWith htmlStartMark (List.drop i (markerText p0 p1 p2 p3 a b c)) = false)
    (hH2 : ∀ i < a.length,
      leadsWith htmlEndMark (List.drop i (a ++ htmlEndMark ++ afterHtml p1 p2 p3 b c)) = false)
    (hC1 : ∀ i < (p0 ++ htmlStartMark ++ a ++ htmlEndMark ++ p1).length,
      leadsWith cssStartMark (List.drop i (markerText p0 p1 p2 p3 a b c)) = false)
    (hC2 : ∀ i < b.length,
      leadsWith cssEndMark (List.drop i (b ++ cssEndMark ++ afterCss p2 p3 c)) = false)
    (hJ1 : ∀ i < (p0 ++ htmlStartMark ++ a ++ htmlEndMark ++ p1 ++ cssStartMark ++ b
        ++ cssEndMark ++ p2).length,
      leadsWith jsStartMark (List.drop i (markerText p0 p1 p2 p3 a b c)) = false)
    (hJ2 : ∀ i < c.length,
      leadsWith jsEndMark (List.drop i (c ++ jsEndMark ++ p3)) = false) :
    extractSectionsE (markerText p0 p1 p2 p3 a b c) =
      ⟨trimL a, trimL b, trimL c⟩ ∧
    extractSectionsN (markerText p0 p1 p2 p3 a b c) =
      ⟨trimL a, trimL b, trimL c⟩ := by
  have hhtml : findMarker htmlStartMark htmlEndMark (markerText p0 p1 p2 p3 a b c) = some a := by
    have hp' : ∀ i < p0.length, leadsWith htmlStartMark
        (List.drop i (p0 ++ (htmlStartMark ++ (a ++ htmlEndMark ++ afterHtml p1 p2 p3 b c)))) = false := by
      simpa only [markerText] using hH1
    have hres := findMarker_decomp htmlStartMark htmlEndMark p0 a
      (afterHtml p1 p2 p3 b c) (by decide) (by decide) hH2 hp'
    simp only [markerText]
    exact hres
  have hassocC : markerText p0 p1 p2 p3 a b c =
      (p0 ++ htmlStartMark ++ a ++ htmlEndMark ++ p1) ++
        (cssStartMark ++ (b ++ cssEndMark ++ afterCss p2 p3 c)) := by
    simp [markerText, afterHtml, List.append_assoc]
  have hcss : findMarker cssStartMark cssEndMark (markerText p0 p1 p2 p3 a b c) = some b := by
    rw [hassocC]
    refine findMarker_decomp cssStartMark cssEndMark _ b (afterCss p2 p3 c)
      (by decide) (by decide) hC2 ?_
    intro i hi
    have h1 := hC1 i hi
    rwa [hassocC] at h1
  have hassocJ : markerText p0 p1 p2 p3 a b c =
      (p0 ++ htmlStartMark ++ a ++ htmlEndMark ++ p1 ++ cssStartMark ++ b
        ++ cssEndMark ++ p2) ++ (jsStartMark ++ (c ++ jsEndMark ++ p3)) := by
    simp [markerText, afterHtml, afterCss, List.append_assoc]
  have hjs : findMarker jsStartMark jsEndMark (markerText p0 p1 p2 p3 a b c) = some c := by
    rw [hassocJ]
    refine findMarker_decomp jsStartMark jsEndMark _ c p3
      (by decide) (by decide) hJ2 ?_
    intro i hi
    have h1 := hJ1 i hi
    rwa [hassocJ] at h1
  constructor
  · simp [extractSectionsE, markerFieldE, hhtml, hcss, hjs]
  · rw [extractSectionsN_eq_E]
    simp [extractSectionsE, markerFieldE, hhtml, hcss, hjs]

/-- Witness for claim C1 at a concrete well-formed marker text. -/
theorem marker_extraction_wellformed_witness :
    extractSectionsE (markerText [] "\n".data "\n".data "\n".data
        " x1 ".data " .btn ".data " let y = 1 ".data) =
      ⟨trimL " x1 ".data, trimL " .btn ".data, trimL " let y = 1 ".data⟩ ∧
    extractSectionsN (markerText [] "\n".data "\n".data "\n".data
        " x1 ".data " .btn ".data " let y = 1 ".data) =
      ⟨trimL " x1 ".data, trimL " .btn ".data, trimL " let y = 1 ".data⟩ :=
  marker_extraction_wellformed [] "\n".data "\n".data "\n".data
    " x1 ".data " .btn ".data " let y = 1 ".data
    (by decide) (by decide) (by decide) (by decide) (by decide) (by decide)

/-- A response text carrying only the HTML and JS marker blocks — the CSS
pair is missing. -/
def markerTextNoCss (p0 p1 p2 a c : List Char) : List Char :=
  p0 ++ (htmlStartMark ++ (a ++ htmlEndMark ++ (p1 ++ (jsStartMark ++ (c ++ jsEndMark ++ p2)))))

/-- Claim C6: when one marker pair (here the CSS pair) is missing from an
otherwise well-formed marker text, extraction yields the empty string for
that field without raising an error, and the values of the other fields are
exactly what they would be with the pair present: the trimmed enclosed
contents (compare `marker_extraction_wellformed`). -/
theorem marker_missing_pair_empty_field (p0 p1 p2 a c : List Char)
    (hH1 : ∀ i < p0.length,
      leadsWith htmlStartMark (List.drop i (markerTextNoCss p0 p1 p2 a c)) = false)
    (hH2 : ∀ i < a.length,
      leadsWith htmlEndMark
        (List.drop i (a ++ htmlEndMark ++ (p1 ++ (jsStartMark ++ (c ++ jsEndMark ++ p2))))) = false)
    (hJ1 : ∀ i < (p0 ++ htmlStartMark ++ a ++ htmlEndMark ++ p1).length,
      leadsWith jsStartMark (List.drop i (markerTextNoCss p0 p1 p2 a c)) = false)
    (hJ2 : ∀ i < c.length,
      leadsWith jsEndMark (List.drop i (c ++ jsEndMark ++ p2)) = false)
    (hCnone : ∀ i < (markerTextNoCss p0 p1 p2 a c).length,
      leadsWith cssStartMark (List.drop i (markerTextNoCss p0 p1 p2 a c)) = false) :
    extractSectionsE (markerTextNoCss p0 p1 p2 a c) = ⟨trimL a, [], trimL c⟩ ∧
    extractSectionsN (markerTextNoCss p0 p1 p2 a c) = ⟨trimL a, [], trimL c⟩ := by
  have hhtml : findMarker htmlStartMark htmlEndMark (markerTextNoCss p0 p1 p2 a c) = some a := by
    have hp' : ∀ i < p0.length, leadsWith htmlStartMark
        (List.drop i (p0 ++ (htmlStartMark ++ (a ++ htmlEndMark ++
          (p1 ++ (jsStartMark ++ (c ++ jsEndMark ++ p2))))))) = false := by
      simpa only [markerTextNoCss] using hH1
    have hres := findMarker_decomp htmlStartMark htmlEndMark p0 a
      (p1 ++ (jsStartMark ++ (c ++ jsEndMark ++ p2))) (by decide) (by decide) hH2 hp'
    simp only [markerTextNoCss]
    exact hres
  have hcssNone : findMarker cssStartMark cssEndMark (markerTextNoCss p0 p1 p2 a c) = none :=
    findMarker_none cssStartMark cssEndMark _ hCnone
  have hassocJ : markerTextNoCss p0 p1 p2 a c =
      (p0 ++ htmlStartMark ++ a ++ htmlEndMark ++ p1) ++
        (jsStartMark ++ (c ++ jsEndMark ++ p2)) := by
    simp [markerTextNoCss, List.append_assoc]
  have hjs : findMarker jsStartMark jsEndMark (markerTextNoCss p0 p1 p2 a c) = some c := by
    rw [hassocJ]
    refine findMarker_decomp jsStartMark jsEndMark _ c p2
      (by decide) (by decide) hJ2 ?_
    intro i hi
    have h1 := hJ1 i hi
    rwa [hassocJ] at h1
  constructor
  · simp [extractSectionsE, markerFieldE, hhtml, hcssNone, hjs]
  · rw [extractSectionsN_eq_E]
    simp [extractSectionsE, markerFieldE, hhtml, hcssNone, hjs]

/-- Witness for claim C6 at a concrete marker text lacking a CSS pair. -/
theorem marker_missing_pair_empty_field_witness :
    extractSectionsE (markerTextNoCss [] "\n".data "\n".data
        " x1 ".data " let y = 1 ".data) =
      ⟨trimL " x1 ".data, [], trimL " let y = 1 ".data⟩ ∧
    extractSectionsN (markerTextNoCss [] "\n".data "\n".data
        " x1 ".data " let y = 1 ".data) =
      ⟨trimL " x1 ".data, [], trimL " let y = 1 ".data⟩ :=
  marker_missing_pair_empty_field [] "\n".data "\n".data
    " x1 ".data " let y = 1 ".data
    (by decide) (by decide) (by decide) (by decide) (by decide)

/- ### Embedded-JSON extraction on well-formed texts (claim C4) -/

/-- The embedded JSON object of claim C4. -/
def c4Json : List Char := "\x7b\"html\":\"a\",\"css\":\"b\",\"js\":\"c\"\x7d".data

/-- `c4Json` without its closing brace. -/
def c4JsonInit : List Char := "\x7b\"html\":\"a\",\"css\":\"b\",\"js\":\"c\"".data

/-- `c4Json` without its opening brace. -/
def c4JsonRest : List Char := "\"html\":\"a\",\"css\":\"b\",\"js\":\"c\"\x7d".data

theorem sliceBraces_c4 (P S : List Char) (hP : '{' ∉ P) (hS : '}' ∉ S) :
    sliceBraces (P ++ c4Json ++ S) = c4Json := by
  have hcons : c4Json = '{' :: c4JsonRest := by decide
  have hconcat : c4JsonInit ++ ('}' :: []) = c4Json := by decide
  have hidx1 : charIdx '{' (P ++ c4Json ++ S) = some P.length := by
    have h1 : P ++ c4Json ++ S = P ++ '{' :: (c4JsonRest ++ S) := by
      rw [hcons]
      simp [List.append_assoc, List.cons_append]
    rw [h1]
    exact charIdx_append_first '{' P _ hP
  have hidx2 : lastCharIdx '}' (P ++ c4Json ++ S) = some (P.length + c4JsonInit.length) := by
    have h2 : P ++ c4Json ++ S = (P ++ c4JsonInit) ++ '}' :: S := by
      rw [← hconcat]
      simp [List.append_assoc, List.cons_append]
    rw [h2, lastCharIdx_append_last '}' (P ++ c4JsonInit) S hS]
    simp [List.length_append]
  rw [sliceBraces, hidx1, hidx2]
  have hlen0 : 0 < c4JsonInit.length := by decide
  have hlt : P.length < P.length + c4JsonInit.length := by omega
  have hdrop : List.drop P.length (P ++ c4Json ++ S) = c4Json ++ S := by
    rw [List.append_assoc, List.drop_left]
  have hlen1 : c4Json.length = c4JsonInit.length + 1 := by decide
  have htake : P.length + c4JsonInit.length + 1 - P.length = c4Json.length := by omega
  show (if P.length < P.length + c4JsonInit.length
      then List.take (P.length + c4JsonInit.length + 1 - P.length)
        (List.drop P.length (P ++ c4Json ++ S))
      else P ++ c4Json ++ S) = c4Json
  rw [if_pos hlt, hdrop, htake, List.take_left]

theorem trimL_around_c4 (p s : List Char) :
    trimL ((p ++ c4Json) ++ s) = (trimLeftL p ++ c4Json) ++ trimRightL s := by
  have hcons : c4Json = '{' :: c4JsonRest := by decide
  have hconcat : c4JsonInit ++ ('}' :: []) = c4Json := by decide
  rw [trimL]
  have h1 : (p ++ c4Json) ++ s = p ++ ('{' :: (c4JsonRest ++ s)) := by
    rw [hcons]
    simp [List.append_assoc, List.cons_append]
  rw [h1, trimLeftL_append_cons p (c4JsonRest ++ s) '{' (by decide)]
  have h2 : trimLeftL p ++ ('{' :: (c4JsonRest ++ s)) =
      ((trimLeftL p ++ c4JsonInit) ++ ('}' :: [])) ++ s := by
    calc trimLeftL p ++ ('{' :: (c4JsonRest ++ s))
        = trimLeftL p ++ (c4Json ++ s) := by
          rw [hcons]
          simp [List.cons_append]
      _ = ((trimLeftL p ++ c4JsonInit) ++ ('}' :: [])) ++ s := by
          rw [← hconcat]
          simp [List.append_assoc]
  rw [h2, trimRightL_append_concat (trimLeftL p ++ c4JsonInit) s '}' (by decide)]
  rw [show (trimLeftL p ++ c4JsonInit) ++ ('}' :: []) = trimLeftL p ++ c4Json from by
    rw [← hconcat]
    simp [List.append_assoc]]

/-- Claim C4: on a response text of the form
`prefix ++ \x7b"html":"a","css":"b","js":"c"\x7d ++ suffix`, where the prefix
contains no opening brace and the suffix contains no closing brace, the
JSON-mode handler slices the text between the first opening and the last
closing brace, parses the slice, and answers 200 with html `"a"`,
css `"b"` and js `"c"`. -/
theorem json_embedded_extraction (p s : List Char) (hp : '{' ∉ p) (hs : '}' ∉ s) :
    (jsonModeExtract (String.mk ((p ++ c4Json) ++ s))).statusCode = 200 ∧
    (jsonModeExtract (String.mk ((p ++ c4Json) ++ s))).html =
      some (JValue.str ('a' :: [])) ∧
    (jsonModeExtract (String.mk ((p ++ c4Json) ++ s))).css =
      some (JValue.str ('b' :: [])) ∧
    (jsonModeExtract (String.mk ((p ++ c4Json) ++ s))).js =
      some (JValue.str ('c' :: [])) := by
  have hP : '{' ∉ trimLeftL p := fun h => hp (mem_of_mem_trimLeftL _ _ h)
  have hS : '}' ∉ trimRightL s := fun h => hs (mem_of_mem_trimRightL _ _ h)
  have hslice : sliceBraces ((trimLeftL p ++ c4Json) ++ trimRightL s) = c4Json :=
    sliceBraces_c4 (trimLeftL p) (trimRightL s) hP hS
  simp only [jsonModeExtract]
  rw [trimL_around_c4 p s, hslice]
  rw [show parseJson c4Json =
    some (JValue.obj [(htmlKey, JValue.str ('a' :: [])),
      (cssKey, JValue.str ('b' :: [])), (jsKey, JValue.str ('c' :: []))]) from rfl]
  exact ⟨rfl, rfl, rfl, rfl⟩

/-- Witness for claim C4 at a concrete prefix and suffix. -/
theorem json_embedded_extraction_witness :
    (jsonModeExtract (String.mk (("pre ".data ++ c4Json) ++ " post".data))).statusCode = 200 ∧
    (jsonModeExtract (String.mk (("pre ".data ++ c4Json) ++ " post".data))).html =
      some (JValue.str ('a' :: [])) ∧
    (jsonModeExtract (String.mk (("pre ".data ++ c4Json) ++ " post".data))).css =
      some (JValue.str ('b' :: [])) ∧
    (jsonModeExtract (String.mk (("pre ".data ++ c4Json) ++ " post".data))).js =
      some (JValue.str ('c' :: [])) :=
  json_embedded_extraction "pre ".data " post".data (by decide) (by decide)
